import Mathlib

/-!
Verification of the fastapi-demo service: a CRUD API over a "post" resource
(src/appWithLimiter.py, src/appWithSqlite.py) fronted by a per-route,
Redis-backed request rate limiter.

The limiter's evaluation algorithm itself lives in the external
fastapi_limiter package, so its counter-store semantics are modelled from the
spec (section 4.1); the rejection callback, the route policy table and all
CRUD handlers are embedded directly from the source files.
-/

namespace App

/-- Rate-limit policy attached to a route: `RateLimiter(times=…, seconds=…)`.
`times` is the spec's maxRequests, `seconds` the spec's windowSeconds. -/
structure RateLimitPolicy where
  times : Nat
  seconds : Nat
deriving DecidableEq

/-- Modelled from the spec: the composite rate-limit key, a
(caller identifier, HTTP method, path template) triple (section 3). -/
structure RateLimitKey where
  caller : String
  method : String
  path : String
deriving DecidableEq

/-- Modelled from the spec: the mutable counter state for one key in the
shared store: requests consumed in the current window and the absolute
expiry instant of the window, in milliseconds. -/
structure CounterEntry where
  count : Nat
  expireAt : Nat
deriving DecidableEq

/-- Modelled from the spec: the shared counter store, one optional counter
per key (absent = never created or expired-and-evicted). -/
def Store : Type := RateLimitKey → Option CounterEntry

/-- Outcome of one rate-limit evaluation: the spec's Admit / Reject decision,
a rejection carrying `retryAfterMillis`, the remaining window time. -/
inductive Decision : Type where
  | allow : Decision
  | reject (retryAfterMillis : Nat) : Decision
deriving DecidableEq

/-- Modelled from the spec: evaluation against a key with no live counter —
initialize the counter with count = 1 and a time-to-live of `windowSeconds`,
then decide by comparing the resulting count (1) with `maxRequests`. -/
def freshEval (st : Store) (key : RateLimitKey) (p : RateLimitPolicy)
    (now : Nat) : Decision × Store :=
  ((if 1 ≤ p.times then Decision.allow
    else Decision.reject (p.seconds * 1000)),
   fun k => if k = key then some ⟨1, now + p.seconds * 1000⟩ else st k)

/-- Modelled from the spec: `evaluate` (section 4.1) — atomically increment
the counter for the key (creating it with TTL `windowSeconds` when absent or
expired), then Admit exactly when the resulting count is at most
`maxRequests`, else Reject carrying the remaining window milliseconds.
Time is in milliseconds; a counter created at `t` is live while
`now < t + seconds * 1000`. -/
def evaluate (st : Store) (key : RateLimitKey) (p : RateLimitPolicy)
    (now : Nat) : Decision × Store :=
  match st key with
  | some e =>
      if now < e.expireAt then
        ((if e.count + 1 ≤ p.times then Decision.allow
          else Decision.reject (e.expireAt - now)),
         fun k => if k = key then some ⟨e.count + 1, e.expireAt⟩ else st k)
      else
        freshEval st key p now
  | none => freshEval st key p now

/-- The store after a sequence of requests for one key at the given times. -/
def runStore (st : Store) (key : RateLimitKey) (p : RateLimitPolicy) :
    List Nat → Store
  | [] => st
  | t :: ts => runStore (evaluate st key p t).2 key p ts

/-- The decisions produced by a sequence of requests for one key. -/
def runRequests (st : Store) (key : RateLimitKey) (p : RateLimitPolicy) :
    List Nat → List Decision
  | [] => []
  | t :: ts =>
      (evaluate st key p t).1 :: runRequests (evaluate st key p t).2 key p ts

theorem evaluate_live_store (st : Store) (key : RateLimitKey)
    (p : RateLimitPolicy) (now c E : Nat)
    (h : st key = some ⟨c, E⟩) (hnow : now < E) :
    (evaluate st key p now).2 key = some ⟨c + 1, E⟩ := by
  simp [evaluate, h, hnow]

theorem evaluate_live_decision (st : Store) (key : RateLimitKey)
    (p : RateLimitPolicy) (now c E : Nat)
    (h : st key = some ⟨c, E⟩) (hnow : now < E) :
    (evaluate st key p now).1 =
      (if c + 1 ≤ p.times then Decision.allow
       else Decision.reject (E - now)) := by
  simp [evaluate, h, hnow]

theorem evaluate_fresh_store (st : Store) (key : RateLimitKey)
    (p : RateLimitPolicy) (now : Nat) (h : st key = none) :
    (evaluate st key p now).2 key = some ⟨1, now + p.seconds * 1000⟩ := by
  simp [evaluate, h, freshEval]

theorem runStore_count (p : RateLimitPolicy) (key : RateLimitKey)
    (ts : List Nat) : ∀ (st : Store) (c E : Nat),
    st key = some ⟨c, E⟩ → (∀ t ∈ ts, t < E) →
    runStore st key p ts key = some ⟨c + ts.length, E⟩ := by
  induction ts with
  | nil => intro st c E h _; simpa [runStore] using h
  | cons t ts ih =>
      intro st c E h hts
      have ht : t < E := hts t (by simp)
      have hstep := evaluate_live_store st key p t c E h ht
      have := ih (evaluate st key p t).2 (c + 1) E hstep
        (fun u hu => hts u (by simp [hu]))
      simpa [runStore, Nat.add_comm, Nat.add_assoc, Nat.add_left_comm] using this

/-- C1: starting from a key with no counter, with requests all inside the
window opened by the first request at `t0`: the first request is admitted
exactly when 1 ≤ maxRequests, and after a history `t0 :: ts` the next
request — the (ts.length + 2)-th, whose atomic increment makes the count
ts.length + 2 — is admitted exactly when that count is at most maxRequests;
hence requests 1..maxRequests are admitted and the (maxRequests+1)-th is
rejected. -/
theorem evaluate_admission (p : RateLimitPolicy) (key : RateLimitKey)
    (st : Store) (t0 t : Nat) (ts : List Nat)
    (hfresh : st key = none)
    (hts : ∀ u ∈ ts, t0 ≤ u ∧ u < t0 + p.seconds * 1000)
    (ht : t0 ≤ t ∧ t < t0 + p.seconds * 1000) :
    ((evaluate st key p t0).1 = Decision.allow ↔ 1 ≤ p.times) ∧
    ((evaluate (runStore st key p (t0 :: ts)) key p t).1 = Decision.allow ↔
      ts.length + 2 ≤ p.times) := by
  constructor
  · simp only [evaluate, hfresh, freshEval]
    by_cases h1 : 1 ≤ p.times <;> simp [h1]
  · have h0 := evaluate_fresh_store st key p t0 hfresh
    have hrun := runStore_count p key ts (evaluate st key p t0).2 1
      (t0 + p.seconds * 1000) h0 (fun u hu => (hts u hu).2)
    have : runStore st key p (t0 :: ts) key =
        some ⟨1 + ts.length, t0 + p.seconds * 1000⟩ := by
      simpa [runStore] using hrun
    rw [evaluate_live_decision _ key p t (1 + ts.length)
      (t0 + p.seconds * 1000) this ht.2]
    by_cases h2 : 1 + ts.length + 1 ≤ p.times
    · simp [h2]; omega
    · simp [h2]; omega

theorem evaluate_admission_witness :
    ((fun _ : RateLimitKey => (none : Option CounterEntry)) ⟨"1.2.3.4", "GET", "/"⟩ = none) ∧
    ((evaluate (fun _ => none) ⟨"1.2.3.4", "GET", "/"⟩ ⟨2, 5⟩ 0).1 = Decision.allow ↔
      1 ≤ (2 : Nat)) ∧
    ((evaluate (runStore (fun _ => none) ⟨"1.2.3.4", "GET", "/"⟩ ⟨2, 5⟩ [0, 100])
        ⟨"1.2.3.4", "GET", "/"⟩ ⟨2, 5⟩ 200).1 = Decision.allow ↔
      [100].length + 2 ≤ (2 : Nat)) := by
  refine ⟨rfl, ?_⟩
  have := evaluate_admission ⟨2, 5⟩ ⟨"1.2.3.4", "GET", "/"⟩ (fun _ => none)
    0 200 [100] rfl (by intro u hu; simp at hu; subst hu; decide) (by decide)
  simpa using this

/-- C3: a counter created at time `t` under window `seconds` (hence expiring
at `t + seconds * 1000` ms) that is still present when the next request
arrives strictly after the window end is treated as expired: the request is
admitted as request #1 of a fresh window, the counter recreated with
count = 1 and a new time-to-live of a full window. -/
theorem counter_expiry (p : RateLimitPolicy) (key : RateLimitKey)
    (st : Store) (c t tNext : Nat)
    (hentry : st key = some ⟨c, t + p.seconds * 1000⟩)
    (hlate : t + p.seconds * 1000 < tNext)
    (hpos : 0 < p.times) :
    (evaluate st key p tNext).1 = Decision.allow ∧
    (evaluate st key p tNext).2 key = some ⟨1, tNext + p.seconds * 1000⟩ := by
  have hdead : ¬ tNext < t + p.seconds * 1000 := by omega
  constructor
  · simp [evaluate, hentry, hdead, freshEval]
    omega
  · simp [evaluate, hentry, hdead, freshEval]

theorem counter_expiry_witness :
    ((fun k : RateLimitKey =>
        if k = ⟨"1.2.3.4", "GET", "/"⟩ then some (⟨2, 0 + 5 * 1000⟩ : CounterEntry)
        else none) ⟨"1.2.3.4", "GET", "/"⟩ =
      some ⟨2, 0 + (5 : Nat) * 1000⟩) ∧
    (0 + (5 : Nat) * 1000 < 5100) ∧ (0 < (2 : Nat)) ∧
    ((evaluate
        (fun k : RateLimitKey =>
          if k = ⟨"1.2.3.4", "GET", "/"⟩ then some ⟨2, 0 + 5 * 1000⟩ else none)
        ⟨"1.2.3.4", "GET", "/"⟩ ⟨2, 5⟩ 5100).1 = Decision.allow ∧
     (evaluate
        (fun k : RateLimitKey =>
          if k = ⟨"1.2.3.4", "GET", "/"⟩ then some ⟨2, 0 + 5 * 1000⟩ else none)
        ⟨"1.2.3.4", "GET", "/"⟩ ⟨2, 5⟩ 5100).2 ⟨"1.2.3.4", "GET", "/"⟩ =
       some ⟨1, 5100 + 5 * 1000⟩) := by
  refine ⟨by decide, by decide, by decide, ?_⟩
  exact counter_expiry ⟨2, 5⟩ ⟨"1.2.3.4", "GET", "/"⟩ _ 2 0 5100
    (by decide) (by decide) (by decide)

theorem runRequests_replicate (p : RateLimitPolicy) (key : RateLimitKey)
    (n : Nat) : ∀ (st : Store) (c E now : Nat),
    st key = some ⟨c, E⟩ → now < E →
    runRequests st key p (List.replicate n now) =
      List.replicate (min n (p.times - c)) Decision.allow ++
      List.replicate (n - (p.times - c)) (Decision.reject (E - now)) := by
  induction n with
  | zero => intro st c E now _ _; simp [runRequests]
  | succ n ih =>
      intro st c E now h hnow
      have hstep := evaluate_live_store st key p now c E h hnow
      have hdec := evaluate_live_decision st key p now c E h hnow
      have htail := ih (evaluate st key p now).2 (c + 1) E now hstep hnow
      rw [List.replicate_succ, runRequests, htail, hdec]
      by_cases hle : c + 1 ≤ p.times
      · have h1 : min (n + 1) (p.times - c) = min n (p.times - (c + 1)) + 1 := by
          omega
        have h2 : n + 1 - (p.times - c) = n - (p.times - (c + 1)) := by omega
        simp [hle, h1, h2, List.replicate_succ]
      · have h1 : p.times - c = 0 := by omega
        have h2 : p.times - (c + 1) = 0 := by omega
        simp [hle, h1, h2, List.replicate_succ]

/-- C4: under the spec's atomic increment-and-check, a burst of
maxRequests + k simultaneous requests (all at instant `now`) on a fresh key
produces exactly maxRequests admissions followed by exactly k rejections —
since each increment is one atomic step, every interleaving of the
simultaneous requests is such a sequence, and none admits maxRequests + 1. -/
theorem concurrent_burst (p : RateLimitPolicy) (key : RateLimitKey)
    (st : Store) (now k : Nat)
    (hfresh : st key = none) (hk : 0 < k)
    (htimes : 0 < p.times) (hsec : 0 < p.seconds) :
    runRequests st key p (List.replicate (p.times + k) now) =
      List.replicate p.times Decision.allow ++
      List.replicate k (Decision.reject (p.seconds * 1000)) := by
  obtain ⟨m, hm⟩ : ∃ m, p.times = m + 1 := ⟨p.times - 1, by omega⟩
  have hsplit : p.times + k = (m + k) + 1 := by omega
  rw [hsplit, List.replicate_succ, runRequests]
  have hdec : (evaluate st key p now).1 = Decision.allow := by
    simp [evaluate, hfresh, freshEval]
    omega
  have hstore := evaluate_fresh_store st key p now hfresh
  have hlive : now < now + p.seconds * 1000 := by
    have : 0 < p.seconds * 1000 := by positivity
    omega
  have htail := runRequests_replicate p key (m + k) (evaluate st key p now).2
    1 (now + p.seconds * 1000) now hstore hlive
  have h1 : min (m + k) (p.times - 1) = m := by omega
  have h2 : m + k - (p.times - 1) = k := by omega
  have h3 : now + p.seconds * 1000 - now = p.seconds * 1000 := by omega
  rw [hdec, htail, h1, h2, h3, hm, List.replicate_succ]
  simp

theorem concurrent_burst_witness :
    ((fun _ : RateLimitKey => (none : Option CounterEntry)) ⟨"1.2.3.4", "GET", "/"⟩ = none) ∧
    (0 < (3 : Nat)) ∧ (0 < (2 : Nat)) ∧ (0 < (5 : Nat)) ∧
    runRequests (fun _ => none) ⟨"1.2.3.4", "GET", "/"⟩ ⟨2, 5⟩
        (List.replicate (2 + 3) 7) =
      List.replicate 2 Decision.allow ++
      List.replicate 3 (Decision.reject (5 * 1000)) := by
  refine ⟨rfl, by decide, by decide, by decide, ?_⟩
  exact concurrent_burst ⟨2, 5⟩ ⟨"1.2.3.4", "GET", "/"⟩ (fun _ => none) 7 3
    rfl (by decide) (by decide) (by decide)

theorem evaluate_other_key (st : Store) (k k' : RateLimitKey)
    (h : k' ≠ k) (p : RateLimitPolicy) (now : Nat) :
    (evaluate st k p now).2 k' = st k' := by
  unfold evaluate freshEval
  cases hst : st k with
  | none => simp [h]
  | some e => by_cases hl : now < e.expireAt <;> simp [hl, h]

theorem evaluate_decision_congr (st st' : Store) (k : RateLimitKey)
    (h : st k = st' k) (p : RateLimitPolicy) (now : Nat) :
    (evaluate st k p now).1 = (evaluate st' k p now).1 := by
  unfold evaluate freshEval
  rw [h]
  cases st' k with
  | none => rfl
  | some e => by_cases hl : now < e.expireAt <;> simp [hl]

/-- C5: two distinct keys never share a counter — any sequence of requests
on one key leaves the other key's counter untouched, and therefore leaves
the admission decision of the next request on the other key (under any
policy, at any time) unchanged. -/
theorem keys_independent (k k' : RateLimitKey) (hne : k' ≠ k)
    (p p' : RateLimitPolicy) (st : Store) (ts : List Nat) (now : Nat) :
    runStore st k p ts k' = st k' ∧
    (evaluate (runStore st k p ts) k' p' now).1 =
      (evaluate st k' p' now).1 := by
  have hframe : ∀ (st : Store), runStore st k p ts k' = st k' := by
    induction ts with
    | nil => intro st; rfl
    | cons t ts ih =>
        intro st
        rw [runStore, ih, evaluate_other_key st k k' hne]
  exact ⟨hframe st,
    evaluate_decision_congr _ _ k' (hframe st) p' now⟩

theorem keys_independent_witness :
    ((⟨"1.2.3.4", "GET", "/posts"⟩ : RateLimitKey) ≠ ⟨"1.2.3.4", "GET", "/"⟩) ∧
    (runStore (fun _ => none) ⟨"1.2.3.4", "GET", "/"⟩ ⟨2, 5⟩ [0, 1, 2, 3]
        ⟨"1.2.3.4", "GET", "/posts"⟩ =
      (fun _ : RateLimitKey => (none : Option CounterEntry)) ⟨"1.2.3.4", "GET", "/posts"⟩) ∧
    ((evaluate (runStore (fun _ => none) ⟨"1.2.3.4", "GET", "/"⟩ ⟨2, 5⟩ [0, 1, 2, 3])
        ⟨"1.2.3.4", "GET", "/posts"⟩ ⟨30, 60⟩ 3).1 =
      (evaluate (fun _ => none) ⟨"1.2.3.4", "GET", "/posts"⟩ ⟨30, 60⟩ 3).1) := by
  refine ⟨by decide, ?_⟩
  exact keys_independent ⟨"1.2.3.4", "GET", "/posts"⟩ ⟨"1.2.3.4", "GET", "/"⟩
    (by decide) ⟨2, 5⟩ ⟨30, 60⟩ (fun _ => none) [0, 1, 2, 3] 3

/-- An HTTP error response raised through HTTPException: status code,
detail message, and response headers. -/
structure CallbackResponse where
  status_code : Nat
  detail : String
  headers : List (String × String)
deriving DecidableEq

/-- The rejection callback of src/appWithLimiter.py (`custom_callback`):
`expire = ceil(pexpire / 1000)`, then HTTPException 429 with the message
naming `expire` seconds and a Retry-After header set to `expire`. -/
def custom_callback (pexpire : Nat) : CallbackResponse :=
  let expire := (pexpire + 1000 - 1) / 1000
  { status_code := 429,
    detail := s!"Too Many Requests. Retry after {expire} seconds.",
    headers := [("Retry-After", toString expire)] }

/-- C2: for every remaining window time `pexpire` milliseconds, the callback
produces status 429 with a Retry-After header carrying a value `s` that is
ceil(pexpire / 1000) — characterized by pexpire ≤ 1000*s < pexpire + 1000 —
and a message string containing that same value. -/
theorem custom_callback_spec (pexpire : Nat) :
    ∃ s : Nat,
      (custom_callback pexpire).status_code = 429 ∧
      (custom_callback pexpire).headers = [("Retry-After", toString s)] ∧
      (∃ pre post : String,
        (custom_callback pexpire).detail = pre ++ toString s ++ post) ∧
      pexpire ≤ 1000 * s ∧ 1000 * s < pexpire + 1000 := by
  refine ⟨(pexpire + 1000 - 1) / 1000, rfl, rfl,
    ⟨"Too Many Requests. Retry after ", " seconds.", ?_⟩, ?_, ?_⟩
  · simp [custom_callback]
    rfl
  · omega
  · omega

/-- One registered route of src/appWithLimiter.py: HTTP method, path
template, and the RateLimiter policy from its `dependencies=[...]`. -/
structure Route where
  method : String
  path : String
  policy : RateLimitPolicy
deriving DecidableEq

/-- The six routes of src/appWithLimiter.py in source order, each with its
RateLimiter(times, seconds) policy. -/
def appRoutes : List Route :=
  [⟨"GET", "/", ⟨2, 5⟩⟩,
   ⟨"GET", "/posts", ⟨30, 60⟩⟩,
   ⟨"POST", "/posts", ⟨5, 60⟩⟩,
   ⟨"GET", "/posts/{id}", ⟨20, 60⟩⟩,
   ⟨"DELETE", "/posts/{id}", ⟨3, 60⟩⟩,
   ⟨"PUT", "/posts/{id}", ⟨10, 60⟩⟩]

/-- The policy a (method, path) pair resolves to in the route table. -/
def findPolicy (m p : String) : Option RateLimitPolicy :=
  (appRoutes.find? (fun r => r.method == m && r.path == p)).map Route.policy

/-- C6: the app registers exactly six routes, each (method, path) pair
appears once (so each route carries exactly one policy), and the policies
are: GET / 2 per 5s; GET /posts 30 per 60s; POST /posts 5 per 60s;
GET /posts/{id} 20 per 60s; PUT /posts/{id} 10 per 60s;
DELETE /posts/{id} 3 per 60s. -/
theorem appRoutes_policies :
    appRoutes.length = 6 ∧
    (appRoutes.map (fun r => (r.method, r.path))).Nodup ∧
    findPolicy "GET" "/" = some ⟨2, 5⟩ ∧
    findPolicy "GET" "/posts" = some ⟨30, 60⟩ ∧
    findPolicy "POST" "/posts" = some ⟨5, 60⟩ ∧
    findPolicy "GET" "/posts/{id}" = some ⟨20, 60⟩ ∧
    findPolicy "PUT" "/posts/{id}" = some ⟨10, 60⟩ ∧
    findPolicy "DELETE" "/posts/{id}" = some ⟨3, 60⟩ := by
  refine ⟨rfl, by decide, rfl, rfl, rfl, rfl, rfl, rfl⟩

/-- One row of the posts table (init_db): id INTEGER PRIMARY KEY
AUTOINCREMENT, title TEXT NOT NULL, content TEXT NOT NULL,
published BOOLEAN DEFAULT TRUE, rating INTEGER (nullable). -/
structure Row where
  id : Nat
  title : String
  content : String
  published : Bool
  rating : Option Int
deriving DecidableEq

/-- The posts database: the stored rows plus the AUTOINCREMENT high-water
mark `seq` (every id ever assigned is ≤ seq; the next id is seq + 1). -/
structure DB where
  rows : List Row
  seq : Nat
deriving DecidableEq

/-- The pydantic request body `Post`: title and content required,
published defaults to True, rating defaults to None. -/
structure Post where
  title : String
  content : String
  published : Bool
  rating : Option Int
deriving DecidableEq

/-- Pydantic validation of a request body: absent optional fields take the
model defaults `published: bool = True`, `rating: Optional[int] = None`. -/
def Post.ofBody (title content : String) (published : Option Bool)
    (rating : Option (Option Int)) : Post :=
  { title := title, content := content,
    published := published.getD true, rating := rating.getD none }

/-- `create_posts` (POST /posts, status 201): INSERT the body's fields —
AUTOINCREMENT assigns id seq + 1 — then SELECT the row with
id = last_insert_rowid() and return it. -/
def create_posts (post : Post) (db : DB) : (Nat × Row) × DB :=
  let row : Row :=
    ⟨db.seq + 1, post.title, post.content, post.published, post.rating⟩
  ((201, row), ⟨db.rows ++ [row], db.seq + 1⟩)

/-- `get_post` (GET /posts/{id}): SELECT * FROM posts WHERE id = ?; 404
with detail naming the id when no row matches. -/
def get_post (id : Nat) (db : DB) : Except CallbackResponse Row :=
  match db.rows.find? (fun r => r.id == id) with
  | some row => Except.ok row
  | none =>
      Except.error ⟨404, s!"post with id: {id} was not found", []⟩

/-- `delete_post` (DELETE /posts/{id}, status 204): DELETE FROM posts WHERE
id = ? and commit, then 404 when cursor.rowcount = 0, else respond 204. -/
def delete_post (id : Nat) (db : DB) : Except CallbackResponse Nat × DB :=
  let remaining := db.rows.filter (fun r => r.id != id)
  let db' : DB := ⟨remaining, db.seq⟩
  if db.rows.length - remaining.length = 0 then
    (Except.error ⟨404, s!"post with id: {id} does not exist", []⟩, db')
  else
    (Except.ok 204, db')

/-- `update_post` (PUT /posts/{id}): UPDATE every row WHERE id = ? to the
body's fields and commit, then 404 when cursor.rowcount = 0, else SELECT
the row back and return it (the SELECT cannot miss once rowcount > 0;
the dead branch mirrors the fetch returning nothing). -/
def update_post (id : Nat) (post : Post) (db : DB) :
    Except CallbackResponse Row × DB :=
  let updated := db.rows.map (fun r =>
    if r.id == id then
      ⟨r.id, post.title, post.content, post.published, post.rating⟩
    else r)
  let db' : DB := ⟨updated, db.seq⟩
  if (db.rows.filter (fun r => r.id == id)).length = 0 then
    (Except.error ⟨404, s!"post with id: {id} does not exist", []⟩, db')
  else
    match updated.find? (fun r => r.id == id) with
    | some row => (Except.ok row, db')
    | none => (Except.error ⟨500, "Internal Server Error", []⟩, db')

theorem update_post_rows (id : Nat) (post : Post) (db : DB) :
    (update_post id post db).2.rows =
      db.rows.map (fun r =>
        if r.id == id then
          (⟨r.id, post.title, post.content, post.published, post.rating⟩ : Row)
        else r) := by
  unfold update_post
  simp only []
  split
  · rfl
  · split <;> rfl

theorem delete_post_rows (id : Nat) (db : DB) :
    (delete_post id db).2.rows = db.rows.filter (fun r => r.id != id) := by
  unfold delete_post
  simp only []
  split <;> rfl

theorem find_id_of_nodup (id : Nat) :
    ∀ (l : List Row), (l.map Row.id).Nodup →
    ∀ r ∈ l, r.id = id → l.find? (fun x => x.id == id) = some r := by
  intro l
  induction l with
  | nil => intro _ r hr; simp at hr
  | cons a l ih =>
      intro hnodup r hr hrid
      simp only [List.map_cons, List.nodup_cons] at hnodup
      rcases List.mem_cons.mp hr with rfl | hrl
      · rw [List.find?_cons_of_pos]
        simp [hrid]
      · have haid : a.id ≠ id := by
          intro hcontra
          exact hnodup.1 (by
            rw [hcontra, ← hrid]
            exact List.mem_map_of_mem Row.id hrl)
        rw [List.find?_cons_of_neg l (by simp [haid])]
        exact ih hnodup.2 r hrl hrid

/-- C7: with unique row ids, GET /posts/{id} returns the stored record whose
id matches, and when no record has that id it fails with 404 and detail
"post with id: {id} was not found". -/
theorem get_post_spec (id : Nat) (db : DB)
    (hnodup : (db.rows.map Row.id).Nodup) :
    (∀ r ∈ db.rows, r.id = id → get_post id db = Except.ok r) ∧
    ((∀ r ∈ db.rows, r.id ≠ id) →
      get_post id db =
        Except.error ⟨404, s!"post with id: {id} was not found", []⟩) := by
  constructor
  · intro r hr hrid
    unfold get_post
    rw [find_id_of_nodup id db.rows hnodup r hr hrid]
  · intro hnone
    unfold get_post
    rw [List.find?_eq_none.mpr (by intro x hx; simp [hnone x hx])]

theorem get_post_spec_witness :
    (([⟨1, "a", "b", true, none⟩] : List Row).map Row.id).Nodup ∧
    get_post 1 ⟨[⟨1, "a", "b", true, none⟩], 1⟩ =
      Except.ok ⟨1, "a", "b", true, none⟩ ∧
    get_post 2 ⟨[⟨1, "a", "b", true, none⟩], 1⟩ =
      Except.error ⟨404, "post with id: 2 was not found", []⟩ := by
  refine ⟨by decide, ?_, ?_⟩
  · exact (get_post_spec 1 ⟨[⟨1, "a", "b", true, none⟩], 1⟩ (by decide)).1
      ⟨1, "a", "b", true, none⟩ (by decide) rfl
  · exact (get_post_spec 2 ⟨[⟨1, "a", "b", true, none⟩], 1⟩ (by decide)).2
      (by intro r hr; simp at hr; subst hr; decide)

/-- C8: for an id with no stored record, PUT /posts/{id} and
DELETE /posts/{id} both fail with 404 and leave the stored rows unchanged;
for a stored id, DELETE succeeds with 204 and PUT returns the updated
record carrying the submitted fields under that id. -/
theorem put_delete_spec (id : Nat) (post : Post) (db : DB) :
    ((∀ r ∈ db.rows, r.id ≠ id) →
      (delete_post id db).1 =
        Except.error ⟨404, s!"post with id: {id} does not exist", []⟩ ∧
      (delete_post id db).2.rows = db.rows ∧
      (update_post id post db).1 =
        Except.error ⟨404, s!"post with id: {id} does not exist", []⟩ ∧
      (update_post id post db).2.rows = db.rows) ∧
    (∀ r ∈ db.rows, r.id = id →
      (delete_post id db).1 = Except.ok 204 ∧
      (update_post id post db).1 =
        Except.ok ⟨id, post.title, post.content, post.published,
          post.rating⟩) := by
  constructor
  · intro hnone
    have hfilter : db.rows.filter (fun r => r.id != id) = db.rows :=
      List.filter_eq_self.mpr (by intro a ha; simp [hnone a ha])
    have hmatch : db.rows.filter (fun r => r.id == id) = [] :=
      List.filter_eq_nil_iff.mpr (by intro a ha; simp [hnone a ha])
    have hmap : db.rows.map (fun r =>
        if r.id == id then
          (⟨r.id, post.title, post.content, post.published, post.rating⟩ : Row)
        else r) = db.rows := by
      calc db.rows.map (fun r =>
            if r.id == id then
              (⟨r.id, post.title, post.content, post.published,
                post.rating⟩ : Row)
            else r)
          = db.rows.map (fun a => a) := by
            apply List.map_congr_left
            intro a ha
            simp [hnone a ha]
        _ = db.rows := List.map_id' db.rows
    refine ⟨?_, ?_, ?_, ?_⟩
    · unfold delete_post
      simp [hfilter]
    · unfold delete_post
      simp [hfilter]
    · unfold update_post
      simp [hmatch]
    · rw [update_post_rows, hmap]
  · intro r hr hrid
    constructor
    · have hdrop : (db.rows.filter (fun x => x.id != id)).length <
          db.rows.length := by
        apply List.length_filter_lt_length_iff_exists.mpr
        exact ⟨r, hr, by simp [hrid]⟩
      unfold delete_post
      have : ¬ (db.rows.length -
          (db.rows.filter (fun x => x.id != id)).length = 0) := by omega
      simp only [this, if_false]
    · unfold update_post
      have hcount : ¬ ((db.rows.filter (fun x => x.id == id)).length = 0) := by
        intro hzero
        have : db.rows.filter (fun x => x.id == id) = [] :=
          List.eq_nil_of_length_eq_zero hzero
        have := List.filter_eq_nil_iff.mp this r hr
        simp [hrid] at this
      simp only [hcount, if_false]
      have hmem : (⟨r.id, post.title, post.content, post.published,
          post.rating⟩ : Row) ∈ db.rows.map (fun x =>
        if x.id == id then
          (⟨x.id, post.title, post.content, post.published, post.rating⟩ : Row)
        else x) := by
        have := List.mem_map_of_mem (fun x =>
          if x.id == id then
            (⟨x.id, post.title, post.content, post.published,
              post.rating⟩ : Row)
          else x) hr
        simpa [hrid] using this
      cases hfind : (db.rows.map (fun x =>
          if x.id == id then
            (⟨x.id, post.title, post.content, post.published,
              post.rating⟩ : Row)
          else x)).find? (fun x => x.id == id) with
      | none =>
          exact absurd (List.find?_eq_none.mp hfind _ hmem) (by simp [hrid])
      | some row =>
          have hrowmem := List.mem_of_find?_eq_some hfind
          have hrowpred := List.find?_some hfind
          obtain ⟨y, hy, hyeq⟩ := List.mem_map.mp hrowmem
          by_cases hyid : y.id = id
          · simp only [show (y.id == id) = true by simp [hyid], if_true]
              at hyeq
            simp [← hyeq, hyid]
          · simp only [show (y.id == id) = false by simp [hyid], Bool.false_eq_true,
              if_false] at hyeq
            rw [← hyeq] at hrowpred
            simp [hyid] at hrowpred

theorem put_delete_spec_witness :
    ((∀ r ∈ ([⟨1, "a", "b", true, none⟩] : List Row), r.id ≠ 2) ∧
      (delete_post 2 ⟨[⟨1, "a", "b", true, none⟩], 1⟩).1 =
        Except.error ⟨404, "post with id: 2 does not exist", []⟩ ∧
      (delete_post 2 ⟨[⟨1, "a", "b", true, none⟩], 1⟩).2.rows =
        [⟨1, "a", "b", true, none⟩] ∧
      (update_post 2 ⟨"t", "c", false, some 3⟩
          ⟨[⟨1, "a", "b", true, none⟩], 1⟩).1 =
        Except.error ⟨404, "post with id: 2 does not exist", []⟩ ∧
      (update_post 2 ⟨"t", "c", false, some 3⟩
          ⟨[⟨1, "a", "b", true, none⟩], 1⟩).2.rows =
        [⟨1, "a", "b", true, none⟩]) ∧
    ((delete_post 1 ⟨[⟨1, "a", "b", true, none⟩], 1⟩).1 = Except.ok 204 ∧
      (update_post 1 ⟨"t", "c", false, some 3⟩
          ⟨[⟨1, "a", "b", true, none⟩], 1⟩).1 =
        Except.ok ⟨1, "t", "c", false, some 3⟩) := by
  constructor
  · exact ⟨by decide,
      (put_delete_spec 2 ⟨"t", "c", false, some 3⟩
          ⟨[⟨1, "a", "b", true, none⟩], 1⟩).1
        (by intro r hr; simp at hr; subst hr; decide)⟩
  · exact (put_delete_spec 1 ⟨"t", "c", false, some 3⟩
        ⟨[⟨1, "a", "b", true, none⟩], 1⟩).2
      ⟨1, "a", "b", true, none⟩ (by decide) rfl

/-- C9: a POST /posts body omitting the optional fields is stored with the
pydantic defaults published = true and rating = null; the 201 response
carries the stored record — the submitted title and content with those
defaults — under a fresh integer id strictly greater than every id assigned
so far (every id ever assigned is at most the AUTOINCREMENT mark `seq`). -/
theorem create_posts_spec (t c : String) (db : DB)
    (hinv : ∀ r ∈ db.rows, r.id ≤ db.seq) :
    (create_posts (Post.ofBody t c none none) db).1.1 = 201 ∧
    (create_posts (Post.ofBody t c none none) db).1.2 =
      ⟨db.seq + 1, t, c, true, none⟩ ∧
    (create_posts (Post.ofBody t c none none) db).1.2 ∈
      (create_posts (Post.ofBody t c none none) db).2.rows ∧
    (∀ r ∈ db.rows,
      r.id < (create_posts (Post.ofBody t c none none) db).1.2.id) := by
  refine ⟨rfl, rfl, ?_, ?_⟩
  · simp [create_posts]
  · intro r hr
    have := hinv r hr
    simp [create_posts, Post.ofBody]
    omega

theorem create_posts_spec_witness :
    (∀ r ∈ ([⟨1, "a", "b", true, none⟩] : List Row), r.id ≤ 1) ∧
    (create_posts (Post.ofBody "t" "c" none none)
        ⟨[⟨1, "a", "b", true, none⟩], 1⟩).1.1 = 201 ∧
    (create_posts (Post.ofBody "t" "c" none none)
        ⟨[⟨1, "a", "b", true, none⟩], 1⟩).1.2 = ⟨2, "t", "c", true, none⟩ ∧
    (∀ r ∈ ([⟨1, "a", "b", true, none⟩] : List Row),
      r.id < (create_posts (Post.ofBody "t" "c" none none)
        ⟨[⟨1, "a", "b", true, none⟩], 1⟩).1.2.id) := by
  have h := create_posts_spec "t" "c" ⟨[⟨1, "a", "b", true, none⟩], 1⟩
    (by intro r hr; simp at hr; subst hr; decide)
  exact ⟨by intro r hr; simp at hr; subst hr; decide, h.1, h.2.1, h.2.2.2⟩

theorem filter_eq_of_nodup (id : Nat) :
    ∀ (l : List Row), (l.map Row.id).Nodup →
    ∀ r ∈ l, r.id = id → l.filter (fun x => x.id == id) = [r] := by
  intro l
  induction l with
  | nil => intro _ r hr; simp at hr
  | cons a l ih =>
      intro hnodup r hr hrid
      simp only [List.map_cons, List.nodup_cons] at hnodup
      rcases List.mem_cons.mp hr with rfl | hrl
      · rw [List.filter_cons_of_pos (by simp [hrid])]
        have : l.filter (fun x => x.id == id) = [] := by
          apply List.filter_eq_nil_iff.mpr
          intro x hx hcontra
          apply hnodup.1
          rw [hrid]
          simp only [beq_iff_eq] at hcontra
          rw [← hcontra]
          exact List.mem_map_of_mem Row.id hx
        rw [this]
      · have haid : a.id ≠ id := by
          intro hcontra
          exact hnodup.1 (by
            rw [hcontra, ← hrid]
            exact List.mem_map_of_mem Row.id hrl)
        rw [List.filter_cons_of_neg (by simp [haid])]
        exact ih hnodup.2 r hrl hrid

theorem update_keeps_other_ids (id : Nat) (post : Post) :
    ∀ (l : List Row),
    (l.map (fun r =>
      if r.id == id then
        (⟨r.id, post.title, post.content, post.published, post.rating⟩ : Row)
      else r)).filter (fun x => x.id != id) =
      l.filter (fun x => x.id != id) := by
  intro l
  induction l with
  | nil => rfl
  | cons a l ih =>
      by_cases ha : a.id = id
      · simp only [List.map_cons, List.filter_cons]
        rw [ih]
        simp [ha]
      · simp only [List.map_cons, List.filter_cons]
        rw [ih]
        simp [ha]

/-- C10: with unique row ids, PUT /posts/{id} keeps every row whose id
differs and preserves the row count (it rewrites at most the one matching
row), DELETE /posts/{id} leaves exactly the rows whose id differs, and the
matching rows form exactly the one stored record — so each operation
touches at most that single record. -/
theorem put_delete_frame (id : Nat) (post : Post) (db : DB)
    (hnodup : (db.rows.map Row.id).Nodup) :
    (∀ r ∈ db.rows, r.id ≠ id →
      r ∈ (update_post id post db).2.rows ∧
      r ∈ (delete_post id db).2.rows) ∧
    ((update_post id post db).2.rows.filter (fun x => x.id != id) =
      db.rows.filter (fun x => x.id != id)) ∧
    ((delete_post id db).2.rows = db.rows.filter (fun x => x.id != id)) ∧
    ((update_post id post db).2.rows.length = db.rows.length) ∧
    (∀ r ∈ db.rows, r.id = id →
      db.rows.filter (fun x => x.id == id) = [r]) := by
  refine ⟨?_, ?_, delete_post_rows id db, ?_, ?_⟩
  · intro r hr hrid
    constructor
    · rw [update_post_rows]
      have := List.mem_map_of_mem (fun x =>
        if x.id == id then
          (⟨x.id, post.title, post.content, post.published,
            post.rating⟩ : Row)
        else x) hr
      simpa [hrid] using this
    · rw [delete_post_rows]
      exact List.mem_filter.mpr ⟨hr, by simp [hrid]⟩
  · rw [update_post_rows]
    exact update_keeps_other_ids id post db.rows
  · rw [update_post_rows]
    exact List.length_map db.rows _
  · exact filter_eq_of_nodup id db.rows hnodup

theorem put_delete_frame_witness :
    (([⟨1, "a", "b", true, none⟩, ⟨2, "x", "y", false, some 4⟩] :
        List Row).map Row.id).Nodup ∧
    (⟨2, "x", "y", false, some 4⟩ : Row) ∈
      (update_post 1 ⟨"t", "c", false, some 3⟩
        ⟨[⟨1, "a", "b", true, none⟩, ⟨2, "x", "y", false, some 4⟩], 2⟩).2.rows ∧
    (delete_post 1
        ⟨[⟨1, "a", "b", true, none⟩, ⟨2, "x", "y", false, some 4⟩], 2⟩).2.rows =
      [⟨2, "x", "y", false, some 4⟩] ∧
    ([⟨1, "a", "b", true, none⟩, ⟨2, "x", "y", false, some 4⟩] :
        List Row).filter (fun x => x.id == 1) = [⟨1, "a", "b", true, none⟩] := by
  have h := put_delete_frame 1 ⟨"t", "c", false, some 3⟩
    ⟨[⟨1, "a", "b", true, none⟩, ⟨2, "x", "y", false, some 4⟩], 2⟩ (by decide)
  refine ⟨by decide, ?_, ?_, ?_⟩
  · exact (h.1 ⟨2, "x", "y", false, some 4⟩ (by simp) (by decide)).1
  · rw [h.2.2.1]
    decide
  · exact h.2.2.2.2 ⟨1, "a", "b", true, none⟩ (by simp) rfl

end App
